import Mathlib

/-!
Shallow embedding of the learning-job pipeline of
`scripts/learning/src/jobs/LearningJobMaster.py` and
`scripts/learning/src/jobs/ControllerJobMaster.py` (DittoGod/NTRTsim),
together with proofs of the testable properties of its specification.

Conventions of the embedding:
* Python `int` values are `Int` (generation IDs can be `-1`).
* Python dictionaries used as member/component records are association
  lists `List (String × _)` with Python-dict update semantics
  (`dictInsert` replaces the entry of an existing key in place).
* `random.choice` is embedded with its random draw supplied as an oracle
  index; it fails (returns `none`) exactly on an empty sequence, as the
  Python call raises `IndexError` there.
* The filesystem is an explicit input (seed-directory contents) or an
  explicit output (file contents returned as values).
-/

namespace NTRT

/-- A value stored in a member's `components` dictionary: either one of the
`int` bookkeeping entries (`memberID`, `generationID`) or a component
candidate attached by the generation assembler.  The candidate payload is a
type parameter. -/
inductive MVal (α : Type) where
  | intV (n : Int)
  | candV (c : α)
deriving DecidableEq, Repr

/-- Modelled from the spec: the `Member` class of `helpersNew` is not under
`src/`.  Per §3 of the spec a member is its `components` mapping, holding
`memberID`, `generationID` and one candidate per component name. -/
structure Member (α : Type) where
  components : List (String × MVal α)
deriving DecidableEq, Repr

/-- Modelled from the spec: construction `Member(memberID=id, generationID=g)`
initialises the components mapping with the two bookkeeping entries (the
source's `writeMemberToFile` reads them back from `components`). -/
def Member.new (memberID : Int) (generationID : Int) : Member α :=
  ⟨[("memberID", MVal.intV memberID), ("generationID", MVal.intV generationID)]⟩

/-- Modelled from the spec: the `Generation` class of `helpersNew` is not
under `src/`.  Per §3 it carries its generationID and an append-only list of
members (`addMember`). -/
structure Generation (α : Type) where
  ID : Int
  members : List (Member α)
deriving DecidableEq, Repr

/-- Modelled from the spec: `addMember` appends a member, preserving order. -/
def Generation.addMember (g : Generation α) (m : Member α) : Generation α :=
  { g with members := g.members ++ [m] }

/-- Python-dictionary assignment `d[k] = v` on an association list: replaces
the entry of an existing key, otherwise appends a new entry. -/
def dictInsert (k : String) (v : α) : List (String × α) → List (String × α)
  | [] => [(k, v)]
  | (k', v') :: rest => if k' = k then (k, v) :: rest else (k', v') :: dictInsert k v rest

/-- Python-dictionary lookup `d[k]`, `none` on a missing key (`KeyError`). -/
def dictLookup (k : String) : List (String × α) → Option α
  | [] => none
  | (k', v) :: rest => if k' = k then some v else dictLookup k rest

/-! ## Population Generator (`ControllerJobMaster.py`) -/

/-- Topology block `components[name]['NeuralNetwork']` of a component
specification. -/
structure NeuralNetConfig where
  numberOfStates : Nat
  numberOfInstances : Nat
  numberOfOutputs : Nat
  numberOfHidden : Nat
deriving DecidableEq, Repr

/-- The `params` payload of a template empty candidate: either the nested
`None`-placeholder lists of `getNonNNParams`, or the flat neural parameter
vector with topology metadata of `getNNParams`. -/
inductive ComponentParams where
  | nonNN (params : List (List (Option Int)))
  | nn (neuralParams : List (Option Int)) (numActions : Nat) (numStates : Nat) (numHidden : Nat)
deriving DecidableEq, Repr

/-- A template empty candidate as returned by `createEmptyComponent`. -/
structure EmptyComponent where
  params : ComponentParams
  generationID : Int
deriving DecidableEq, Repr

/-- `getNonNNParams`: a `numberOfInstances × numberOfOutputs` nested list of
`None` placeholders, built by the two nested loops of the source. -/
def getNonNNParams (neuralNet : NeuralNetConfig) : ComponentParams :=
  ComponentParams.nonNN
    ((List.range neuralNet.numberOfInstances).map fun _ =>
      (List.range neuralNet.numberOfOutputs).map fun _ => none)

/-- `getNNParams`: flat parameter vector `[None] * totalParams` with
`totalParams = (numStates + 1) * numHidden + (numHidden + 1) * numOutputs`,
plus the topology metadata recorded by the source. -/
def getNNParams (neuralNet : NeuralNetConfig) : ComponentParams :=
  let numOutputs := neuralNet.numberOfOutputs
  let numStates := neuralNet.numberOfStates
  let numHidden := neuralNet.numberOfHidden
  let totalParams := (numStates + 1) * numHidden + (numHidden + 1) * numOutputs
  ComponentParams.nn (List.replicate totalParams none) numOutputs numStates numHidden

/-- `createEmptyComponent`: dispatch on `numberOfStates == 0`, then record the
generation ID on the template. -/
def createEmptyComponent (neuralNet : NeuralNetConfig) (generationID : Int) : EmptyComponent :=
  let params :=
    if neuralNet.numberOfStates = 0 then getNonNNParams neuralNet else getNNParams neuralNet
  { params := params, generationID := generationID }

/-- The paramID assignment of `generateComponentPopulation`:
`component['paramID'] = populationSize * generationID + component['populationID']`. -/
def paramID (populationSize : Int) (generationID : Int) (populationID : Int) : Int :=
  populationSize * generationID + populationID

/-- A raw candidate returned by the pluggable learning algorithm, before the
post-processing loop of `generateComponentPopulation`: it carries its
population-local index and generation index. -/
structure RawCandidate where
  populationID : Int
  generationID : Int
deriving DecidableEq, Repr

/-- A post-processed candidate: the raw candidate together with its assigned
`paramID` and initialised empty `scores` list. -/
structure Candidate where
  populationID : Int
  generationID : Int
  paramIDv : Int
  scores : List Int
deriving DecidableEq, Repr

/-- The backwards-compatibility post-processing loop of
`generateComponentPopulation`: every candidate of the population gets
`paramID = populationSize * generationID + populationID` and `scores = []`. -/
def postProcessPopulation (populationSize : Int) (generationID : Int)
    (componentPopulation : List RawCandidate) : List Candidate :=
  componentPopulation.map fun c =>
    { populationID := c.populationID
      generationID := c.generationID
      paramIDv := paramID populationSize generationID c.populationID
      scores := [] }

/-! ## Neural weight serialization (`writeToNNW`) -/

/-- `writeToNNW`, file content as a character list: the first parameter's
textual form is written bare, every later one is written preceded by a
comma (the `first` flag of the source); nothing else — no trailing
separator, no newline.  Each parameter's Python `str(x)` textual form is
the input. -/
def writeToNNW (neuralParams : List (List Char)) : List Char :=
  match neuralParams with
  | [] => []
  | x :: rest => rest.foldl (fun fout y => fout ++ (',' :: y)) x

/-- Splitting a character sequence on commas, the re-parsing half of the
round-trip stated by the spec. -/
def commaSplit : List Char → List (List Char)
  | [] => [[]]
  | c :: cs =>
    if c = ',' then [] :: commaSplit cs
    else
      match commaSplit cs with
      | [] => [[c]]
      | r :: rs => (c :: r) :: rs

/-! ## Generation assembly (`LearningJobMaster.createNewGeneration`) -/

/-- `random.choice(l)` with the random draw supplied as an oracle index `k`
(the source draws uniformly; any index can occur).  On an empty sequence the
Python call raises `IndexError`, embedded as `none`; on a non-empty sequence
it returns an element of the sequence. -/
def randomChoice (k : Nat) (l : List α) : Option α :=
  l.get? (k % l.length)

/-- The inner loop of `createNewGeneration`: for each
`(component, population)` of `componentPopulations`, execute
`newMember.components[component] = random.choice(population)`.  `choose ci`
is the oracle draw for the `ci`-th component of this member. -/
def attachComponents (choose : Nat → Nat) (ci : Nat)
    (componentPopulations : List (String × List α)) (m : Member α) : Option (Member α) :=
  match componentPopulations with
  | [] => some m
  | (component, population) :: rest =>
    match randomChoice (choose ci) population with
    | none => none
    | some randomPopulation =>
      attachComponents choose (ci + 1) rest
        ⟨dictInsert component (MVal.candV randomPopulation) m.components⟩

/-- The outer loop of `createNewGeneration` over `range(generationSize)`:
build `Member(memberID=id, generationID=generationID)`, attach one random
candidate per component, and collect the members in order. -/
def buildMembers (rand : Nat → Nat → Nat) (generationID : Int)
    (componentPopulations : List (String × List α)) : List Nat → Option (List (Member α))
  | [] => some []
  | id :: ids =>
    match attachComponents (rand id) 0 componentPopulations
        (Member.new (id : Int) generationID) with
    | none => none
    | some m => (buildMembers rand generationID componentPopulations ids).map (m :: ·)

/-- `createNewGeneration(componentPopulations, generationID)`: a fresh
`Generation(generationID)` populated with `generationSize` members via
`addMember`.  `rand id ci` is the oracle draw of member `id`'s `ci`-th
component choice; `none` models the `IndexError` escape of
`random.choice` on an empty population. -/
def createNewGeneration (rand : Nat → Nat → Nat) (generationSize : Nat)
    (componentPopulations : List (String × List α)) (generationID : Int) :
    Option (Generation α) :=
  (buildMembers rand generationID componentPopulations (List.range generationSize)).map
    fun ms => (ms.foldl Generation.addMember ⟨generationID, []⟩ : Generation α)

/-! ## Generation-ID sequencing (`getNewGenerationID`) -/

/-- Modelled from the spec: Python truthiness of a `Generation` object (the
class lives in `helpersNew`, outside `src/`); per §3/§9 of the spec an empty
generation is falsy ("previous" falsy/absent means no seed). -/
def generationTruthy (g : Generation α) : Bool :=
  !g.members.isEmpty

/-- `getNewGenerationID(previousGeneration)`: `previousGeneration.ID + 1`
when the previous generation is truthy, else `-1`. -/
def getNewGenerationID (previousGeneration : Generation α) : Int :=
  if generationTruthy previousGeneration then previousGeneration.ID + 1 else -1

/-! ## Seed import (`importSeedGeneration`) -/

/-- `importSeedGeneration`, with the filesystem as an explicit input:
`none` when `os.path.isdir(seedDirectory)` is false, `some records` for the
JSON records of the directory's files in listing order.  A non-directory
path only prints a warning (the `raise` of the source is commented out) and
the empty `Generation(-1)` is returned; a directory's files are each wrapped
as `Member(components=seedInput)` and appended via `addMember`. -/
def importSeedGeneration (seedDirectory : Option (List (List (String × MVal α)))) :
    Generation α :=
  let previousGeneration : Generation α := ⟨-1, []⟩
  match seedDirectory with
  | some files =>
    files.foldl (fun g seedInput => g.addMember ⟨seedInput⟩) previousGeneration
  | none => previousGeneration

/-! ## Trial dispatch (`beginTrialMaster`) -/

/-- The raw configured `TrialProperties['terrains']` value: either a string
(the `"flat"` compatibility case) or a list of terrain descriptors. -/
inductive TerrainsValue where
  | str (s : String)
  | list (ts : List (List (List Int)))
deriving DecidableEq, Repr

/-- One element yielded by Python iteration over the raw terrains value: a
character when the value is a string, a terrain descriptor when it is a
list. -/
inductive TerrainItem where
  | char (c : Char)
  | terrain (t : List (List Int))
deriving DecidableEq, Repr

/-- Python iteration over the raw terrains value:
`for terrain in self.trialProperties['terrains']` iterates the characters of
a string and the elements of a list. -/
def terrainIter : TerrainsValue → List TerrainItem
  | TerrainsValue.str s => s.data.map TerrainItem.char
  | TerrainsValue.list ts => ts.map TerrainItem.terrain

/-- The terrain-compatibility hack of `_setup`: `self.terrains` is assigned
(to `[[[0, 0, 0, 0]]]`) only when the configured value equals the string
`"flat"`; `none` means the attribute is left unset. -/
def setupTerrains (configured : TerrainsValue) : Option (List (List (List Int))) :=
  if configured = TerrainsValue.str "flat" then some [[[0, 0, 0, 0]]] else none

/-- The configuration fields read by the trial-dispatch loop. -/
structure RunConfig where
  fileName : String
  trialPath : String
  executable : String
  trialLength : Int
  terrains : TerrainsValue
  generationCount : Nat
deriving Repr

/-- The resource directory constant of `LearningJobMaster`. -/
def RESOURCE_DIRECTORY_NAME : String :=
  "../../../resources/src/"

/-- `writeMemberToFile`, returning the basename
`{fileName}_{generationID}_{memberID}.json` built from the member's
components dictionary; `none` models the `KeyError` when a bookkeeping entry
is missing. -/
def writeMemberToFile (fileNameConfig : String) (m : Member α) : Option String :=
  match dictLookup "generationID" m.components, dictLookup "memberID" m.components with
  | some (MVal.intV g), some (MVal.intV i) =>
    some (fileNameConfig ++ "_" ++ toString g ++ "_" ++ toString i ++ ".json")
  | _, _ => none

/-- One job description handed to `EvolutionJob(args)`. -/
structure EvolutionJob where
  filename : String
  resourcePrefix : String
  path : String
  executable : String
  length : Int
  terrain : List (List Int)
deriving DecidableEq, Repr

/-- The per-member body of the dispatch loop: write the member to file, then
for every iteration of the raw configured terrains value build one job —
whose `terrain` field the source immediately overwrites with the fixed
flat-terrain descriptor `[[0, 0, 0, 0]]`. -/
def memberJobs (cfg : RunConfig) (m : Member α) : Option (List EvolutionJob) :=
  match writeMemberToFile cfg.fileName m with
  | none => none
  | some fileName =>
    some ((terrainIter cfg.terrains).map fun _terrain =>
      { filename := fileName
        resourcePrefix := RESOURCE_DIRECTORY_NAME
        path := cfg.trialPath
        executable := cfg.executable
        length := cfg.trialLength
        terrain := [[0, 0, 0, 0]] })

/-- The member loop of one generation: jobs of every member of
`activeGeneration.getMembers()` in order, appended to `jobList`. -/
def generationJobs (cfg : RunConfig) : List (Member α) → Option (List EvolutionJob)
  | [] => some []
  | m :: ms =>
    match memberJobs cfg m, generationJobs cfg ms with
    | some js, some rest => some (js ++ rest)
    | _, _ => none

/-- The generation loop of `beginTrialMaster`, recording the batch handed to
`ConcurrentScheduler` at each generation's barrier.  `jobList` is the
accumulator initialised once before the loop and — as in the source — never
cleared between generations: each iteration appends the active generation's
jobs to it and submits the whole of it. -/
def runBatches (cfg : RunConfig) (generationGeneratorFuction : Generation α → Generation α) :
    Nat → Generation α → List EvolutionJob → Option (List (List EvolutionJob))
  | 0, _, _ => some []
  | n + 1, previousGeneration, jobList =>
    let activeGeneration := generationGeneratorFuction previousGeneration
    match generationJobs cfg activeGeneration.members with
    | none => none
    | some js =>
      let jobList' := jobList ++ js
      (runBatches cfg generationGeneratorFuction n activeGeneration jobList').map (jobList' :: ·)

/-- `beginTrialMaster`: import the seed generation, then run the generation
loop for `generationCount` iterations, starting from the empty `jobList`.
The result is the list of batches submitted at the successive barriers. -/
def beginTrialMaster (cfg : RunConfig)
    (generationGeneratorFuction : Generation α → Generation α)
    (seedDirectory : Option (List (List (String × MVal α)))) :
    Option (List (List EvolutionJob)) :=
  runBatches cfg generationGeneratorFuction cfg.generationCount
    (importSeedGeneration seedDirectory) []

/-- A small concrete run configuration used to evaluate the dispatch loop on
concrete inputs. -/
def sampleConfig (terrains : TerrainsValue) : RunConfig :=
  { fileName := "f", trialPath := "p", executable := "e", trialLength := 5,
    terrains := terrains, generationCount := 2 }

/-- The job description the dispatch loop builds for member `0` of
generation `0` under `sampleConfig`. -/
def sampleJob : EvolutionJob :=
  { filename := "f_0_0.json", resourcePrefix := RESOURCE_DIRECTORY_NAME, path := "p",
    executable := "e", length := 5, terrain := [[0, 0, 0, 0]] }

/-! ## Helper lemmas -/

/-- Tail of the comma-joined text after the first element: each later
element contributes a comma followed by its text. -/
def joinRest : List (List Char) → List Char
  | [] => []
  | y :: ys => ',' :: (y ++ joinRest ys)

theorem foldl_comma_eq_joinRest (xs : List (List Char)) :
    ∀ a : List Char, xs.foldl (fun fout y => fout ++ (',' :: y)) a = a ++ joinRest xs := by
  induction xs with
  | nil => intro a; simp [joinRest]
  | cons y ys ih =>
    intro a
    simp only [List.foldl_cons, joinRest, ih, List.append_assoc, List.cons_append,
      List.nil_append]

theorem writeToNNW_cons (x : List Char) (xs : List (List Char)) :
    writeToNNW (x :: xs) = x ++ joinRest xs := by
  simp [writeToNNW, foldl_comma_eq_joinRest]

theorem commaSplit_append (x : List Char) (hx : ',' ∉ x) :
    ∀ (cs r : List Char) (rs : List (List Char)), commaSplit cs = r :: rs →
      commaSplit (x ++ cs) = (x ++ r) :: rs := by
  induction x with
  | nil => intro cs r rs h; simpa using h
  | cons c x ih =>
    intro cs r rs h
    have hc : ¬(c = ',') := fun e => hx (e ▸ List.mem_cons_self c x)
    have hx' : ',' ∉ x := fun m => hx (List.mem_cons_of_mem c m)
    simp only [List.cons_append, commaSplit, if_neg hc, List.append_eq,
      ih hx' cs r rs h]

theorem commaSplit_writeToNNW (xs : List (List Char)) :
    ∀ x : List Char, ',' ∉ x → (∀ y ∈ xs, ',' ∉ y) →
      commaSplit (writeToNNW (x :: xs)) = x :: xs := by
  induction xs with
  | nil =>
    intro x hx _
    have h0 : commaSplit ([] : List Char) = [] :: [] := rfl
    have := commaSplit_append x hx [] [] [] h0
    simpa [writeToNNW_cons, joinRest] using this
  | cons y ys ih =>
    intro x hx hys
    have hy : ',' ∉ y := hys y (List.mem_cons_self y ys)
    have hys' : ∀ z ∈ ys, ',' ∉ z := fun z hz => hys z (List.mem_cons_of_mem y hz)
    have h1 : commaSplit (y ++ joinRest ys) = y :: ys := by
      have := ih y hy hys'
      simpa [writeToNNW_cons] using this
    have h2 : commaSplit (',' :: (y ++ joinRest ys)) = [] :: y :: ys := by
      simp [commaSplit, h1]
    have := commaSplit_append x hx (',' :: (y ++ joinRest ys)) [] (y :: ys) h2
    simpa [writeToNNW_cons, joinRest] using this

/-! ## C1: paramID assignment -/

/-- C1: every candidate post-processed by the population generator for
`(c, g)` is assigned `paramID = PopulationSize(c) * g + populationID`; for
`populationID` in `[0, PopulationSize(c))` the paramID lies in
`[PopulationSize(c)*g, PopulationSize(c)*g + PopulationSize(c))`, and two
candidates of the same component (same or different generation) with
indices in that range never share a paramID. -/
theorem generateComponentPopulation_paramID
    (populationSize g g' i i' : Int) (pop : List RawCandidate)
    (hP : 0 < populationSize)
    (hi0 : 0 ≤ i) (hiP : i < populationSize)
    (hj0 : 0 ≤ i') (hjP : i' < populationSize) :
    (∀ c ∈ postProcessPopulation populationSize g pop,
        c.paramIDv = populationSize * g + c.populationID ∧ c.scores = []) ∧
    populationSize * g ≤ paramID populationSize g i ∧
    paramID populationSize g i < populationSize * g + populationSize ∧
    (paramID populationSize g i = paramID populationSize g' i' → g = g' ∧ i = i') := by
  have emod_key : ∀ j h : Int, 0 ≤ j → j < populationSize →
      (populationSize * h + j) % populationSize = j := by
    intro j h hj0 hjP
    rw [add_comm, Int.add_mul_emod_self_left, Int.emod_eq_of_lt hj0 hjP]
  refine ⟨?_, ?_, ?_, ?_⟩
  · intro c hc
    simp only [postProcessPopulation, List.mem_map] at hc
    obtain ⟨r, _, rfl⟩ := hc
    exact ⟨rfl, rfl⟩
  · exact le_add_of_nonneg_right hi0
  · exact add_lt_add_left hiP _
  · intro heq
    have hii : i = i' := by
      have h1 := congrArg (· % populationSize) heq
      simpa [paramID, emod_key i g hi0 hiP, emod_key i' g' hj0 hjP] using h1
    subst hii
    refine ⟨?_, rfl⟩
    have h2 : populationSize * g = populationSize * g' := by
      have := heq
      simp only [paramID] at this
      omega
    exact mul_left_cancel₀ (ne_of_gt hP) h2

/-- Witness for C1 at `populationSize = 3`, `g = g' = 1`, `i = i' = 2`. -/
theorem generateComponentPopulation_paramID_witness :
    (∀ c ∈ postProcessPopulation 3 1 [⟨0, 1⟩, ⟨1, 1⟩],
        c.paramIDv = 3 * 1 + c.populationID ∧ c.scores = []) ∧
    3 * 1 ≤ paramID 3 1 2 ∧
    paramID 3 1 2 < 3 * 1 + 3 ∧
    (paramID 3 1 2 = paramID 3 1 2 → (1 : Int) = 1 ∧ (2 : Int) = 2) :=
  generateComponentPopulation_paramID 3 1 1 2 2 [⟨0, 1⟩, ⟨1, 1⟩]
    (by decide) (by decide) (by decide) (by decide) (by decide)

/-! ## C3: generation-ID sequencing -/

/-- C3: with a truthy (non-empty) previous generation, `getNewGenerationID`
returns `previous.ID + 1` — so a seed of ID `-1` yields `0` and a
generation of ID `0` yields `1`; with an empty (falsy) previous generation
it returns `-1`. -/
theorem getNewGenerationID_spec (prev : Generation α) :
    (prev.members ≠ [] → getNewGenerationID prev = prev.ID + 1) ∧
    (prev.members = [] → getNewGenerationID prev = -1) ∧
    (prev.members ≠ [] → prev.ID = -1 → getNewGenerationID prev = 0) ∧
    (prev.members ≠ [] → prev.ID = 0 → getNewGenerationID prev = 1) := by
  unfold getNewGenerationID generationTruthy
  rcases prev with ⟨pid, members⟩
  cases members with
  | nil => simp
  | cons m ms =>
    refine ⟨fun _ => by simp, fun h => by simp at h, fun _ h => ?_, fun _ h => ?_⟩ <;>
      (simp at h ⊢; omega)

/-- Witness for C3: a non-empty seed generation of ID `-1` is followed by
generation `0`. -/
theorem getNewGenerationID_spec_witness :
    getNewGenerationID (⟨-1, [Member.new 0 (-1)]⟩ : Generation Nat) = 0 :=
  (getNewGenerationID_spec (⟨-1, [Member.new 0 (-1)]⟩ : Generation Nat)).2.2.1
    (by decide) rfl

/-! ## C6: neural weight serialization round-trip -/

/-- C6 (amended to non-empty vectors): writing the textual forms `0.1`,
`-2.0`, `3` produces exactly the text `0.1,-2.0,3` (no trailing separator
or newline), and for every non-empty parameter vector whose elements'
textual forms are comma-free — as numeric textual forms are — splitting the
written text on commas yields the original textual forms: the round-trip,
up to textual precision. -/
theorem writeToNNW_roundTrip (x : List Char) (xs : List (List Char))
    (hx : ',' ∉ x) (hxs : ∀ y ∈ xs, ',' ∉ y) :
    writeToNNW ["0.1".data, "-2.0".data, "3".data] = "0.1,-2.0,3".data ∧
    commaSplit (writeToNNW (x :: xs)) = x :: xs :=
  ⟨by decide, commaSplit_writeToNNW xs x hx hxs⟩

/-- C6 counterexample: the round-trip fails for the empty vector — the
written text is empty, and splitting it on commas yields one empty piece
(which is not a numeric textual form), not the original empty vector. -/
theorem writeToNNW_empty_roundTrip_fails :
    commaSplit (writeToNNW []) ≠ [] := by
  decide

/-- Witness for C6 at the spec's vector `[0.1, -2.0, 3]`. -/
theorem writeToNNW_roundTrip_witness :
    writeToNNW ["0.1".data, "-2.0".data, "3".data] = "0.1,-2.0,3".data ∧
    commaSplit (writeToNNW ["0.1".data, "-2.0".data, "3".data]) =
      ["0.1".data, "-2.0".data, "3".data] :=
  writeToNNW_roundTrip "0.1".data ["-2.0".data, "3".data]
    (by decide) (by decide)

/-! ## C7: template empty candidate -/

/-- C7: with zero declared internal states the template empty candidate is a
`[numberOfInstances][numberOfOutputs]` nested list of `None` placeholders;
otherwise it is a flat `None` vector of length
`(numStates + 1) * numHidden + (numHidden + 1) * numOutputs` with topology
metadata `numActions = numberOfOutputs`, `numStates`, `numHidden`. -/
theorem createEmptyComponent_template (neuralNet : NeuralNetConfig) (generationID : Int) :
    (createEmptyComponent neuralNet generationID).generationID = generationID ∧
    (neuralNet.numberOfStates = 0 →
      ∃ rows, (createEmptyComponent neuralNet generationID).params =
          ComponentParams.nonNN rows ∧
        rows.length = neuralNet.numberOfInstances ∧
        ∀ row ∈ rows, row.length = neuralNet.numberOfOutputs ∧ ∀ e ∈ row, e = none) ∧
    (neuralNet.numberOfStates ≠ 0 →
      ∃ v, (createEmptyComponent neuralNet generationID).params =
          ComponentParams.nn v neuralNet.numberOfOutputs neuralNet.numberOfStates
            neuralNet.numberOfHidden ∧
        v.length = (neuralNet.numberOfStates + 1) * neuralNet.numberOfHidden +
          (neuralNet.numberOfHidden + 1) * neuralNet.numberOfOutputs ∧
        ∀ e ∈ v, e = none) := by
  refine ⟨rfl, fun h0 => ?_, fun hn => ?_⟩
  · refine ⟨List.replicate neuralNet.numberOfInstances
        (List.replicate neuralNet.numberOfOutputs none), ?_, ?_, ?_⟩
    · simp [createEmptyComponent, if_pos h0, getNonNNParams, List.map_const]
    · simp
    · intro row hrow
      rw [List.eq_of_mem_replicate hrow]
      exact ⟨by simp, fun e he => List.eq_of_mem_replicate he⟩
  · refine ⟨List.replicate ((neuralNet.numberOfStates + 1) * neuralNet.numberOfHidden +
        (neuralNet.numberOfHidden + 1) * neuralNet.numberOfOutputs) none, ?_, ?_, ?_⟩
    · simp [createEmptyComponent, if_neg hn, getNNParams]
    · simp
    · intro e he
      exact List.eq_of_mem_replicate he

/-- Witness for C7 in both branches: a zero-state topology
(2 instances × 3 outputs) and a neural topology
(2 states, 2 hidden, 1 output → 9 parameters). -/
theorem createEmptyComponent_template_witness :
    (∃ rows, (createEmptyComponent ⟨0, 2, 3, 0⟩ 0).params = ComponentParams.nonNN rows ∧
      rows.length = 2 ∧ ∀ row ∈ rows, row.length = 3 ∧ ∀ e ∈ row, e = none) ∧
    (∃ v, (createEmptyComponent ⟨2, 1, 1, 2⟩ 0).params = ComponentParams.nn v 1 2 2 ∧
      v.length = (2 + 1) * 2 + (2 + 1) * 1 ∧ ∀ e ∈ v, e = none) :=
  ⟨(createEmptyComponent_template ⟨0, 2, 3, 0⟩ 0).2.1 rfl,
   (createEmptyComponent_template ⟨2, 1, 1, 2⟩ 0).2.2 (by decide)⟩

/-! ## C8: seed import -/

theorem importSeed_foldl (files : List (List (String × MVal α))) :
    ∀ g : Generation α,
      files.foldl (fun g seedInput => g.addMember ⟨seedInput⟩) g =
        ⟨g.ID, g.members ++ files.map (fun seedInput => (⟨seedInput⟩ : Member α))⟩ := by
  induction files with
  | nil => intro g; simp
  | cons f fs ih =>
    intro g
    rw [List.foldl_cons, ih]
    simp [Generation.addMember, List.append_assoc]

/-- C8: a non-directory seed path yields the empty generation of ID `-1`
(the run proceeds, as the source only prints a warning); a readable
directory yields a generation of ID `-1` whose members are the files'
records, each wrapped as an already fully populated member, in listing
order. -/
theorem importSeedGeneration_spec :
    importSeedGeneration (none : Option (List (List (String × MVal α)))) =
      (⟨-1, []⟩ : Generation α) ∧
    ∀ files : List (List (String × MVal α)),
      importSeedGeneration (some files) =
        (⟨-1, files.map (fun seedInput => (⟨seedInput⟩ : Member α))⟩ : Generation α) := by
  constructor
  · rfl
  · intro files
    simp [importSeedGeneration, importSeed_foldl]

/-! ## Dictionary lemmas for the generation assembler -/

/-- Python-dictionary key uniqueness: at most one entry per key. -/
def UniqKeys (l : List (String × α)) : Prop :=
  ∀ k, (l.filter (fun e => e.1 = k)).length ≤ 1

theorem filter_dictInsert_self (k : String) (v : α) (l : List (String × α))
    (h : (l.filter (fun e => e.1 = k)).length ≤ 1) :
    (dictInsert k v l).filter (fun e => e.1 = k) = [(k, v)] := by
  induction l with
  | nil => simp [dictInsert]
  | cons e rest ih =>
    obtain ⟨k1, v1⟩ := e
    by_cases hk : k1 = k
    · subst hk
      have hl : List.filter (fun e => e.1 = k1) ((k1, v1) :: rest) =
          (k1, v1) :: rest.filter (fun e => e.1 = k1) := by
        simp [List.filter_cons]
      have hrest : rest.filter (fun e => e.1 = k1) = [] := by
        rw [hl] at h
        simp only [List.length_cons] at h
        exact List.length_eq_zero.mp (by omega)
      simp [dictInsert, List.filter_cons, hrest]
    · have h' : (rest.filter (fun e => e.1 = k)).length ≤ 1 := by
        simpa [List.filter_cons, hk] using h
      simp [dictInsert, if_neg hk, List.filter_cons, hk, ih h']

theorem filter_dictInsert_ne (k k' : String) (v : α) (l : List (String × α))
    (hne : k' ≠ k) :
    (dictInsert k v l).filter (fun e => e.1 = k') = l.filter (fun e => e.1 = k') := by
  induction l with
  | nil => simp [dictInsert, List.filter_cons, Ne.symm hne]
  | cons e rest ih =>
    obtain ⟨k1, v1⟩ := e
    by_cases hk : k1 = k
    · subst hk
      simp [dictInsert, List.filter_cons, Ne.symm hne]
    · simp only [dictInsert, if_neg hk, List.filter_cons]
      by_cases hk' : k1 = k' <;> simp [hk', ih]

theorem uniqKeys_dictInsert (k : String) (v : α) (l : List (String × α))
    (h : UniqKeys l) : UniqKeys (dictInsert k v l) := by
  intro k'
  by_cases hk : k' = k
  · rw [hk, filter_dictInsert_self k v l (h k)]
    simp
  · rw [filter_dictInsert_ne k k' v l hk]
    exact h k'

theorem uniqKeys_member_new (i g : Int) :
    UniqKeys ((Member.new i g : Member α).components) := by
  intro k
  by_cases h1 : "memberID" = k <;> by_cases h2 : "generationID" = k
  · exact absurd (h1.trans h2.symm) (by decide)
  · simp [Member.new, List.filter_cons, h1, h2]
  · simp [Member.new, List.filter_cons, h1, h2]
  · simp [Member.new, List.filter_cons, h1, h2]

theorem randomChoice_mem (k : Nat) (l : List α) (h : l ≠ []) :
    ∃ x ∈ l, randomChoice k l = some x := by
  have hlen : 0 < l.length := List.length_pos.mpr h
  have hlt : k % l.length < l.length := Nat.mod_lt _ hlen
  exact ⟨l.get ⟨k % l.length, hlt⟩, List.get_mem l _ _,
    by simp [randomChoice, List.get?_eq_get hlt]⟩

theorem attachComponents_spec (choose : Nat → Nat) :
    ∀ (pops : List (String × List α)) (ci : Nat) (m : Member α),
      UniqKeys m.components →
      (pops.map Prod.fst).Nodup →
      (∀ p ∈ pops, p.2 ≠ []) →
      ∃ m', attachComponents choose ci pops m = some m' ∧
        UniqKeys m'.components ∧
        (∀ k, k ∉ pops.map Prod.fst →
          m'.components.filter (fun e => e.1 = k) =
            m.components.filter (fun e => e.1 = k)) ∧
        ∀ p ∈ pops, ∃ c ∈ p.2,
          m'.components.filter (fun e => e.1 = p.1) = [(p.1, MVal.candV c)] := by
  intro pops
  induction pops with
  | nil =>
    intro ci m hm _ _
    exact ⟨m, rfl, hm, fun _ _ => rfl, by simp⟩
  | cons hd rest ih =>
    intro ci m hm hnodup hne
    obtain ⟨name, pop⟩ := hd
    simp only [List.map_cons, List.nodup_cons] at hnodup
    obtain ⟨hname, hnodup'⟩ := hnodup
    have hpop : pop ≠ [] := hne (name, pop) (List.mem_cons_self _ _)
    obtain ⟨c, hc, hchoice⟩ := randomChoice_mem (choose ci) pop hpop
    have hne' : ∀ p ∈ rest, p.2 ≠ [] := fun p hp => hne p (List.mem_cons_of_mem _ hp)
    obtain ⟨m', hm', hm'u, hunch, hall⟩ :=
      ih (ci + 1) ⟨dictInsert name (MVal.candV c) m.components⟩
        (uniqKeys_dictInsert name _ m.components hm) hnodup' hne'
    refine ⟨m', ?_, hm'u, ?_, ?_⟩
    · simp only [attachComponents, hchoice]
      exact hm'
    · intro k hk
      simp only [List.map_cons, List.mem_cons, not_or] at hk
      obtain ⟨hk1, hk2⟩ := hk
      rw [hunch k hk2]
      exact filter_dictInsert_ne name k _ m.components hk1
    · intro p hp
      rcases List.mem_cons.mp hp with heq | hp'
      · subst heq
        refine ⟨c, hc, ?_⟩
        rw [hunch name hname]
        exact filter_dictInsert_self name _ m.components (hm name)
      · exact hall p hp'

theorem buildMembers_spec (rand : Nat → Nat → Nat) (genID : Int)
    (pops : List (String × List α))
    (hnodup : (pops.map Prod.fst).Nodup)
    (hne : ∀ p ∈ pops, p.2 ≠ []) :
    ∀ ids : List Nat, ∃ ms, buildMembers rand genID pops ids = some ms ∧
      ms.length = ids.length ∧
      ∀ m ∈ ms, ∀ p ∈ pops, ∃ c ∈ p.2,
        m.components.filter (fun e => e.1 = p.1) = [(p.1, MVal.candV c)] := by
  intro ids
  induction ids with
  | nil => exact ⟨[], rfl, rfl, by simp⟩
  | cons id ids ih =>
    obtain ⟨ms, hms, hlen, hall⟩ := ih
    obtain ⟨m', hm', _, _, hattach⟩ :=
      attachComponents_spec (rand id) pops 0 (Member.new (id : Int) genID)
        (uniqKeys_member_new _ _) hnodup hne
    refine ⟨m' :: ms, ?_, by simp [hlen], ?_⟩
    · simp only [buildMembers, hm', hms, Option.map_some']
    · intro m hm p hp
      rcases List.mem_cons.mp hm with rfl | hmem
      · exact hattach p hp
      · exact hall m hmem p hp

theorem foldl_addMember (ms : List (Member α)) :
    ∀ g : Generation α, ms.foldl Generation.addMember g = ⟨g.ID, g.members ++ ms⟩ := by
  induction ms with
  | nil => intro g; simp
  | cons m ms ih =>
    intro g
    rw [List.foldl_cons, ih]
    simp [Generation.addMember, List.append_assoc]

/-! ## C2: generation assembly -/

/-- C2: for every mapping of non-empty component populations and every
generationID, `createNewGeneration` returns a generation of exactly
`generationSize` members, and every member carries exactly one candidate
entry for every component name of the mapping — none omitted, none
duplicated — and that candidate comes from the component's population. -/
theorem createNewGeneration_spec (rand : Nat → Nat → Nat) (generationSize : Nat)
    (componentPopulations : List (String × List α)) (generationID : Int)
    (hnodup : (componentPopulations.map Prod.fst).Nodup)
    (hne : ∀ p ∈ componentPopulations, p.2 ≠ []) :
    ∃ gen, createNewGeneration rand generationSize componentPopulations generationID =
        some gen ∧
      gen.ID = generationID ∧
      gen.members.length = generationSize ∧
      ∀ m ∈ gen.members, ∀ p ∈ componentPopulations, ∃ c ∈ p.2,
        m.components.filter (fun e => e.1 = p.1) = [(p.1, MVal.candV c)] := by
  obtain ⟨ms, hms, hlen, hall⟩ :=
    buildMembers_spec rand generationID componentPopulations hnodup hne
      (List.range generationSize)
  refine ⟨⟨generationID, ms⟩, ?_, rfl, by simp [hlen], hall⟩
  simp [createNewGeneration, hms, foldl_addMember]

/-- Witness for C2 with one component `"a"` of population `[5]` and
generation size `1`. -/
theorem createNewGeneration_spec_witness :
    ∃ gen : Generation Nat,
      createNewGeneration (fun _ _ => 0) 1 [("a", [5])] 0 = some gen ∧
      gen.ID = 0 ∧
      gen.members.length = 1 ∧
      ∀ m ∈ gen.members, ∀ p ∈ [("a", [5])], ∃ c ∈ p.2,
        m.components.filter (fun e => e.1 = p.1) = [(p.1, MVal.candV c)] :=
  createNewGeneration_spec (fun _ _ => 0) 1 [("a", [5])] 0 (by decide) (by decide)

/-! ## C10: totality of the assembler under non-empty populations -/

theorem attachComponents_isSome (choose : Nat → Nat) :
    ∀ (pops : List (String × List α)) (ci : Nat) (m : Member α),
      (∀ p ∈ pops, p.2 ≠ []) → (attachComponents choose ci pops m).isSome := by
  intro pops
  induction pops with
  | nil => intro ci m _; simp [attachComponents]
  | cons hd rest ih =>
    intro ci m hne
    obtain ⟨name, pop⟩ := hd
    obtain ⟨c, _, hchoice⟩ :=
      randomChoice_mem (choose ci) pop (hne _ (List.mem_cons_self _ _))
    simp only [attachComponents, hchoice]
    exact ih (ci + 1) _ (fun p hp => hne p (List.mem_cons_of_mem _ hp))

theorem buildMembers_isSome (rand : Nat → Nat → Nat) (genID : Int)
    (pops : List (String × List α)) (hne : ∀ p ∈ pops, p.2 ≠ []) :
    ∀ ids : List Nat, (buildMembers rand genID pops ids).isSome := by
  intro ids
  induction ids with
  | nil => simp [buildMembers]
  | cons id ids ih =>
    obtain ⟨m, hm⟩ := Option.isSome_iff_exists.mp
      (attachComponents_isSome (rand id) pops 0 (Member.new (id : Int) genID) hne)
    obtain ⟨ms, hms⟩ := Option.isSome_iff_exists.mp ih
    simp [buildMembers, hm, hms]

/-- C10: under the precondition that every component's population is
non-empty, the per-component uniform choice returns an element of that
population and `createNewGeneration` always returns a generation (the
empty-sequence error branch of `random.choice` is unreachable); on an input
with an empty population the operation fails (`none`) instead of returning
a generation. -/
theorem createNewGeneration_safety (rand : Nat → Nat → Nat) (generationSize : Nat)
    (componentPopulations : List (String × List α)) (generationID : Int)
    (hne : ∀ p ∈ componentPopulations, p.2 ≠ []) :
    (createNewGeneration rand generationSize componentPopulations generationID).isSome ∧
    (∀ (k : Nat) (l : List α), l ≠ [] → ∃ x ∈ l, randomChoice k l = some x) ∧
    createNewGeneration rand 1 [("a", ([] : List α))] generationID = none := by
  refine ⟨?_, fun k l h => randomChoice_mem k l h, ?_⟩
  · obtain ⟨ms, hms⟩ := Option.isSome_iff_exists.mp
      (buildMembers_isSome rand generationID componentPopulations hne
        (List.range generationSize))
    simp [createNewGeneration, hms]
  · rfl

/-- Witness for C10 with population `[7]` for component `"a"`. -/
theorem createNewGeneration_safety_witness :
    (createNewGeneration (fun _ _ => 0) 2 [("a", [7])] (-1) :
      Option (Generation Nat)).isSome ∧
    (∀ (k : Nat) (l : List Nat), l ≠ [] → ∃ x ∈ l, randomChoice k l = some x) ∧
    createNewGeneration (fun _ _ => 0) 1 [("a", ([] : List Nat))] (-1) = none :=
  createNewGeneration_safety (fun _ _ => 0) 2 [("a", [7])] (-1) (by decide)

/-! ## C5: terrain override -/

/-- C5: every job description built by the dispatch loop for a member — one
per iteration of the configured terrain list — carries the fixed
flat-terrain descriptor `[[0, 0, 0, 0]]` as its terrain field, whatever
terrain value was configured. -/
theorem memberJobs_flatTerrain (cfg : RunConfig) (m : Member α)
    (js : List EvolutionJob) (h : memberJobs cfg m = some js) :
    ∀ j ∈ js, j.terrain = [[0, 0, 0, 0]] := by
  intro j hj
  unfold memberJobs at h
  rcases hw : writeMemberToFile cfg.fileName m with _ | fn <;> rw [hw] at h
  · exact absurd h (by simp)
  · injection h with h
    subst h
    simp only [List.mem_map] at hj
    obtain ⟨t, _, rfl⟩ := hj
    rfl

/-- Witness for C5: a configured non-flat terrain `[[1, 2, 3, 4]]` still
yields a job with terrain `[[0, 0, 0, 0]]`. -/
theorem memberJobs_flatTerrain_witness :
    sampleJob.terrain = [[0, 0, 0, 0]] :=
  memberJobs_flatTerrain (sampleConfig (TerrainsValue.list [[[1, 2, 3, 4]]]))
    (Member.new 0 0 : Member Nat) [sampleJob] (by decide) sampleJob (by decide)

/-! ## C9: the dispatcher iterates the raw configured terrains value -/

/-- C9: the dispatch loop iterates the raw configured
`TrialProperties['terrains']` value, so the number of jobs per member equals
the length of that raw value — for the string `"flat"`, four jobs, one per
character — while the normalized `self.terrains` of `_setup` is assigned
only when the configured value equals `"flat"` (and is never read by the
loop, which consumes only the raw value). -/
theorem memberJobs_terrains_raw (cfg : RunConfig) (m : Member α)
    (js : List EvolutionJob) (h : memberJobs cfg m = some js) :
    js.length = (terrainIter cfg.terrains).length ∧
    (cfg.terrains = TerrainsValue.str "flat" → js.length = 4) ∧
    setupTerrains (TerrainsValue.str "flat") = some [[[0, 0, 0, 0]]] ∧
    ∀ raw, raw ≠ TerrainsValue.str "flat" → setupTerrains raw = none := by
  have hlen : js.length = (terrainIter cfg.terrains).length := by
    unfold memberJobs at h
    rcases hw : writeMemberToFile cfg.fileName m with _ | fn <;> rw [hw] at h
    · exact absurd h (by simp)
    · injection h with h
      subst h
      simp
  refine ⟨hlen, fun hf => ?_, rfl, fun raw hraw => ?_⟩
  · rw [hlen, hf]
    decide
  · simp [setupTerrains, hraw]

/-- Witness for C9: with terrains configured as the string `"flat"`, four
jobs are built for the member. -/
theorem memberJobs_terrains_raw_witness :
    [sampleJob, sampleJob, sampleJob, sampleJob].length =
      (terrainIter (sampleConfig (TerrainsValue.str "flat")).terrains).length ∧
    ((sampleConfig (TerrainsValue.str "flat")).terrains = TerrainsValue.str "flat" →
      [sampleJob, sampleJob, sampleJob, sampleJob].length = 4) ∧
    setupTerrains (TerrainsValue.str "flat") = some [[[0, 0, 0, 0]]] ∧
    (∀ raw, raw ≠ TerrainsValue.str "flat" → setupTerrains raw = none) :=
  memberJobs_terrains_raw (sampleConfig (TerrainsValue.str "flat"))
    (Member.new 0 0 : Member Nat) [sampleJob, sampleJob, sampleJob, sampleJob]
    (by decide)

/-! ## C4: the batch submitted at a generation's barrier -/

/-- C4 fails on the code: `jobList` is initialised once before the
generation loop of `beginTrialMaster` and never cleared, so the batch handed
to the scheduler at a generation's barrier accumulates every earlier
generation's job descriptions.  Concretely, with `generationCount = 2`, one
member per generation and one configured terrain, the claim predicts
batches of one job each, but the second barrier's batch holds two jobs —
generation 0's job description re-submitted alongside generation 1's. -/
theorem beginTrialMaster_jobList_accumulates :
    beginTrialMaster (sampleConfig (TerrainsValue.list [[[0, 0, 0, 0]]]))
        (fun _ => (⟨0, [Member.new 0 0]⟩ : Generation Nat)) none =
      some [[sampleJob], [sampleJob, sampleJob]] := by
  decide

end NTRT
